import Mathlib

/-!
# Verification of the InvokeFilePanelController (neo3-visual-tracker)

Shallow embedding of `src/extension/panelControllers/invokeFilePanelController.ts`
(the panel controller that keeps an invocation file, an in-memory view state and
a rendered panel consistent, and tracks submitted transactions).

JavaScript-specific behaviours are modelled explicitly:
  * an out-of-range array index yields `undefined`, modelled as `Option.none`;
  * `Array.prototype.filter((_, i) => p i)` is `filterIdx`;
  * plain objects used as string-keyed maps are association lists with
    insertion-order-preserving assignment (`objSet` / `objGet`);
  * truthiness of JSON values is `jsTruthy`.
-/

namespace InvokeFile

/-- JS `Array.prototype.filter` with the element-index callback:
`l.filter((_, i) => p i)`. -/
def filterIdx (p : Nat → Bool) : List α → List α
  | [] => []
  | a :: l =>
    if p 0 then a :: filterIdx (fun i => p (i + 1)) l
    else filterIdx (fun i => p (i + 1)) l

/-- Lookup in a JS object used as a string-keyed map. -/
def objGet (m : List (String × β)) (k : String) : Option β :=
  (m.find? (fun kv => kv.1 = k)).map (·.2)

/-- Assignment `m[k] = v` on a JS object: updates the existing key in place
(preserving insertion order) or appends a fresh key at the end. -/
def objSet (m : List (String × β)) (k : String) (v : β) : List (String × β) :=
  if m.any (fun kv => kv.1 = k) then
    m.map (fun kv => if kv.1 = k then (k, v) else kv)
  else m ++ [(k, v)]

/-! ## moveStep (the `request.moveStep` branch of `onRequest`)

```ts
let { from, to } = request.moveStep;
let oldFileContents = [...this.viewState.fileContents];
let newFileContents = oldFileContents.filter((_, i) => i !== from);
if (to > from) { to--; }
newFileContents = [
  ...newFileContents.filter((_, i) => i < to),
  oldFileContents[from],
  ...newFileContents.filter((_, i) => i >= to),
];
```

`oldFileContents[from]` is `undefined` when `from` is out of range, so the
result lives in `List (Option α)`: `some a` is a genuine element, `none` is
the JS `undefined` value. -/

def moveStep (l : List α) (f t : Nat) : List (Option α) :=
  let old := l.map some
  let removed := filterIdx (fun i => i ≠ f) old
  let t' := if f < t then t - 1 else t
  filterIdx (fun i => decide (i < t')) removed
    ++ [l.get? f]
    ++ filterIdx (fun i => decide (t' ≤ i)) removed

/-- The move operation as the specification words it: remove the element at
`from`, then insert it at `to` interpreted against the array after removal
(`to` decremented by one when the nominal target exceeds `from`). -/
def moveStepSpec (l : List α) (f t : Nat) (x : α) : List α :=
  (l.eraseIdx f).insertIdx (if f < t then t - 1 else t) x

/-! ### filterIdx lemmas -/

theorem filterIdx_true (l : List α) : filterIdx (fun _ => true) l = l := by
  induction l with
  | nil => rfl
  | cons a l ih => simp [filterIdx, ih]

theorem filterIdx_false (l : List α) : filterIdx (fun _ => false) l = [] := by
  induction l with
  | nil => rfl
  | cons a l ih => simpa [filterIdx] using ih

theorem filterIdx_congr (p q : Nat → Bool) (l : List α)
    (h : ∀ i, p i = q i) : filterIdx p l = filterIdx q l := by
  induction l generalizing p q with
  | nil => rfl
  | cons a l ih =>
    simp only [filterIdx, h 0]
    rw [ih (fun i => p (i + 1)) (fun i => q (i + 1)) (fun i => h (i + 1))]

theorem filterIdx_ne (f : Nat) (l : List α) :
    filterIdx (fun i => i ≠ f) l = l.eraseIdx f := by
  induction l generalizing f with
  | nil => rfl
  | cons a l ih =>
    cases f with
    | zero =>
      simp only [filterIdx, decide_not, List.eraseIdx]
      rw [filterIdx_congr _ (fun _ => true) l (by intro i; simp)]
      simp [filterIdx_true]
    | succ f =>
      have hfn : (fun i => decide (i + 1 ≠ f + 1)) = (fun i => decide (i ≠ f)) := by
        funext i; simp
      simp only [filterIdx, List.eraseIdx]
      rw [hfn, ih]
      simp

theorem filterIdx_lt (t : Nat) (l : List α) :
    filterIdx (fun i => decide (i < t)) l = l.take t := by
  induction l generalizing t with
  | nil => simp [filterIdx]
  | cons a l ih =>
    cases t with
    | zero =>
      simp only [filterIdx]
      rw [filterIdx_congr (fun i => decide (i + 1 < 0)) (fun _ => false) l
        (by intro i; simp)]
      simp [List.take, filterIdx_false]
    | succ t =>
      simp only [filterIdx]
      rw [filterIdx_congr (fun i => decide (i + 1 < t + 1)) (fun i => decide (i < t)) l
        (by intro i; simp)]
      simp [ih, List.take]

theorem filterIdx_ge (t : Nat) (l : List α) :
    filterIdx (fun i => decide (t ≤ i)) l = l.drop t := by
  induction l generalizing t with
  | nil => simp [filterIdx]
  | cons a l ih =>
    cases t with
    | zero =>
      simp only [filterIdx]
      rw [filterIdx_congr (fun i => decide (0 ≤ i + 1)) (fun _ => true) l
        (by intro i; simp)]
      simp [filterIdx_true]
    | succ t =>
      simp only [filterIdx]
      rw [filterIdx_congr (fun i => decide (t + 1 ≤ i + 1)) (fun i => decide (t ≤ i)) l
        (by intro i; simp)]
      simp [ih, List.drop]

theorem insertIdx_eq_take_cons_drop (n : Nat) (x : α) (l : List α) (h : n ≤ l.length) :
    l.insertIdx n x = l.take n ++ x :: l.drop n := by
  induction l generalizing n with
  | nil =>
    have hn : n = 0 := Nat.le_zero.1 h
    subst hn
    simp
  | cons a l ih =>
    cases n with
    | zero => simp
    | succ n =>
      simp only [List.insertIdx_succ_cons, List.take_succ_cons, List.drop_succ_cons,
        List.cons_append]
      rw [ih n (by simpa using h)]

theorem eraseIdx_map_some (l : List α) (f : Nat) :
    (l.map some).eraseIdx f = (l.eraseIdx f).map some := by
  induction l generalizing f with
  | nil => rfl
  | cons a l ih => cases f <;> simp [List.eraseIdx, ih]

theorem moveStep_eq_takeDrop (l : List α) (f t : Nat) :
    moveStep l f t =
      ((l.eraseIdx f).map some).take (if f < t then t - 1 else t)
        ++ [l.get? f]
        ++ ((l.eraseIdx f).map some).drop (if f < t then t - 1 else t) := by
  simp only [moveStep]
  rw [filterIdx_ne, filterIdx_lt, filterIdx_ge, eraseIdx_map_some]

/-- C2: for in-range `from` and `to`, `moveStep` removes the element at `from`
and re-inserts it at `to` interpreted against the array after removal (the
nominal target is decremented by one when it exceeds `from`); in particular on
`[A,B,C,D]`, `moveStep 0 2` yields `[B,A,C,D]`, `moveStep 3 0` yields
`[D,A,B,C]`, and `moveStep 1 1` leaves the order unchanged. -/
theorem moveStep_correct {α : Type} (l : List α) (f t : Nat) (A B C D : α)
    (hf : f < l.length) (ht : t < l.length) :
    moveStep l f t = (moveStepSpec l f t (l.get ⟨f, hf⟩)).map some
    ∧ moveStep [A, B, C, D] 0 2 = [some B, some A, some C, some D]
    ∧ moveStep [A, B, C, D] 3 0 = [some D, some A, some B, some C]
    ∧ moveStep [A, B, C, D] 1 1 = [some A, some B, some C, some D] := by
  refine ⟨?_, rfl, rfl, rfl⟩
  have hlen : (l.eraseIdx f).length = l.length - 1 := by
    rw [List.length_eraseIdx]
    simp [hf]
  have hle : (if f < t then t - 1 else t) ≤ (l.eraseIdx f).length := by
    rw [hlen]
    by_cases hc : f < t <;> simp [hc] <;> omega
  rw [moveStep_eq_takeDrop, moveStepSpec, insertIdx_eq_take_cons_drop _ _ _ hle]
  rw [List.get?_eq_get hf]
  simp [List.map_take, List.map_drop]

/-- Witness for `moveStep_correct` at concrete inputs. -/
theorem moveStep_correct_witness :
    moveStep [10, 20, 30, 40] 0 2 = (moveStepSpec [10, 20, 30, 40] 0 2 10).map some
    ∧ moveStep [1, 2, 3, 4] 0 2 = [some 2, some 1, some 3, some 4] := by
  refine ⟨?_, ?_⟩
  · exact (moveStep_correct [10, 20, 30, 40] 0 2 1 2 3 4 (by decide) (by decide)).1
  · exact (moveStep_correct [10, 20, 30, 40] 0 2 1 2 3 4 (by decide) (by decide)).2.1

/-- C10: when `from` is out of range, `moveStep` is not a no-op: nothing is
removed and the JS `undefined` read at `oldFileContents[from]` is inserted, so
the result has length `n + 1` and contains a value (`none`) that is not an
invocation step. -/
theorem moveStep_out_of_range {α : Type} (l : List α) (f t : Nat)
    (hf : l.length ≤ f) :
    (moveStep l f t).length = l.length + 1 ∧ none ∈ moveStep l f t := by
  have herase : l.eraseIdx f = l := List.eraseIdx_of_length_le hf
  have hget : l.get? f = none := List.get?_eq_none.2 hf
  rw [moveStep_eq_takeDrop, herase, hget]
  constructor
  · simp only [List.length_append, List.length_take, List.length_drop,
      List.length_cons, List.length_nil, List.length_map]
    omega
  · simp

/-- Witness for `moveStep_out_of_range` at a concrete input. -/
theorem moveStep_out_of_range_witness :
    (moveStep [1, 2, 3] 5 1).length = 4 ∧ none ∈ moveStep [1, 2, 3] 5 1 :=
  moveStep_out_of_range [1, 2, 3] 5 1 (by decide)

/-! ## Transaction tracking

```ts
const MAX_RECENT_TXS = 10;
```

`RecentTransaction` entries are `{ txid, blockchain, tx?, state }` where
`state` is `"pending" | "ok" | "error"` (shared/transactionStatus). The `tx`
payload is the node's raw-transaction response; for the poll logic only its
`vmstate` and `confirmations` fields are inspected. -/

def MAX_RECENT_TXS : Nat := 10

inductive TransactionStatus where
  | pending
  | ok
  | error
deriving DecidableEq, Repr

structure TxData where
  vmstate : Option String
  confirmations : Option Nat
deriving DecidableEq, Repr

structure RecentTransaction where
  txid : String
  blockchain : String
  tx : Option TxData := none
  state : TransactionStatus
deriving DecidableEq, Repr

/-- The guard `_.tx && (_.tx as any).confirmations` of `periodicViewStateUpdate`:
`tx` must be present and its `confirmations` field truthy (a nonzero number). -/
def txConfirmed (e : RecentTransaction) : Bool :=
  match e.tx with
  | some t =>
    match t.confirmations with
    | some n => n ≠ 0
    | none => false
  | none => false

/-- The classification
`vmstate === "FAULT" ? "error" : vmstate ? "ok" : "pending"`;
a present but empty string is falsy in JS, hence `pending`. -/
def vmstateToStatus (vmstate : Option String) : TransactionStatus :=
  if vmstate = some "FAULT" then .error
  else
    match vmstate with
    | some s => if s = "" then .pending else .ok
    | none => .pending

/-- One entry of the `Promise.all` map in `periodicViewStateUpdate`. The
oracle models `connection?.rpcClient.getRawTransaction(txid, true)`: `none`
stands for a missing connection or a thrown RPC error, both of which land in
the `catch (e) { return _; }` branch (with no connection, `tx` is `undefined`
and reading `.vmstate` throws). -/
def pollOne (oracle : String → Option TxData) (e : RecentTransaction) :
    RecentTransaction :=
  if txConfirmed e then e
  else
    match oracle e.txid with
    | none => e
    | some tx =>
      { txid := e.txid, blockchain := e.blockchain, tx := some tx,
        state := vmstateToStatus tx.vmstate }

/-- The recent-transaction part of `periodicViewStateUpdate`. -/
def periodicPoll (oracle : String → Option TxData)
    (l : List RecentTransaction) : List RecentTransaction :=
  l.map (pollOne oracle)

/-- The txids for which a poll cycle issues a `getRawTransaction` query:
exactly the entries failing the `_.tx && _.tx.confirmations` guard. -/
def pollQueries (l : List RecentTransaction) : List String :=
  (l.filter (fun e => !txConfirmed e)).map (fun e => e.txid)

/-! ## Transaction-id extraction from runner output

```ts
for (const txidMatch of ` ${result.message} `.matchAll(/\s0x[0-9a-f]+\s/gi)) {
  const txid = txidMatch[0].trim();
```

The regex `/\s0x[0-9a-f]+\s/gi` is modelled over the character list: a match
at a position is a whitespace character, `0`, `x` (case-insensitive), a
maximal nonempty run of hex digits, then a whitespace character (the run being
maximal loses no match: every shorter split ends on a hex digit, which is not
whitespace). `matchAll` resumes searching at the end of each match, so the
trailing whitespace of one match is consumed and unavailable as the leading
whitespace of the next. `.trim()` strips the two surrounding whitespace
characters, leaving the `0x…` token. -/

def jsWhitespace (c : Char) : Bool :=
  c = ' ' || c = '\t' || c = '\n' || c = '\r' || c = '\x0b' || c = '\x0c'

def isHexChar (c : Char) : Bool :=
  c.isDigit || ('a' ≤ c && c ≤ 'f') || ('A' ≤ c && c ≤ 'F')

/-- Try to match `/\s0x[0-9a-f]+\s/i` at the head of the character list.
On success, return the trimmed token and the remainder after the match. -/
def tryMatchTxid : List Char → Option (String × List Char)
  | c0 :: '0' :: x :: rest =>
    if jsWhitespace c0 && (x = 'x' || x = 'X') then
      let hexs := rest.takeWhile isHexChar
      match rest.drop hexs.length with
      | c1 :: rest2 =>
        if jsWhitespace c1 && !hexs.isEmpty then
          some (String.mk ('0' :: x :: hexs), rest2)
        else none
      | [] => none
    else none
  | _ => none

/-- `matchAll` scan: at each position, emit a match and resume after it, or
advance one character. The fuel argument is always called with the length of
the list; since every step consumes at least one character this never runs
out. -/
def scanTxidsAux : Nat → List Char → List String
  | 0, _ => []
  | fuel + 1, cs =>
    match tryMatchTxid cs with
    | some (tok, rest) => tok :: scanTxidsAux fuel rest
    | none =>
      match cs with
      | [] => []
      | _ :: cs' => scanTxidsAux fuel cs'

/-- All txids extracted from `` ` ${message} ` `` by the `matchAll` loop. -/
def extractTxids (message : String) : List String :=
  let cs := ' ' :: message.data ++ [' ']
  scanTxidsAux cs.length cs

/-- The success branch of `runFile`: each extracted txid is `unshift`ed as a
fresh `pending` entry, then the array's `length` is clamped to
`MAX_RECENT_TXS` (dropping the tail). -/
def runFileTracker (blockchain : String) (message : String)
    (old : List RecentTransaction) : List RecentTransaction :=
  let recents := (extractTxids message).foldl
    (fun acc txid =>
      { txid := txid, blockchain := blockchain, tx := none,
        state := .pending } :: acc)
    old
  recents.take MAX_RECENT_TXS

structure RunResult where
  isError : Bool
  message : String

/-- `runFile` from the point where the runner has been invoked: the view
state has already had `collapseTransactions` set to `false`; on a runner
error the message is surfaced via `showErrorMessage` (the `Option String`
component) and nothing else happens; on success the tracker list is updated. -/
def runFileAfterRunner (result : RunResult) (blockchain : String)
    (recentTransactions : List RecentTransaction) :
    List RecentTransaction × Option String :=
  if result.isError then (recentTransactions, some result.message)
  else (runFileTracker blockchain result.message recentTransactions, none)

/-- Recent-transaction lists reachable from the initial empty list by
`runFile` successes and poll cycles. -/
inductive ReachableRecents : List RecentTransaction → Prop where
  | init : ReachableRecents []
  | run (blockchain message : String) {l : List RecentTransaction} :
      ReachableRecents l → ReachableRecents (runFileTracker blockchain message l)
  | poll (oracle : String → Option TxData) {l : List RecentTransaction} :
      ReachableRecents l → ReachableRecents (periodicPoll oracle l)

/-! ### Transaction-tracking lemmas -/

theorem pollOne_txid (oracle : String → Option TxData) (e : RecentTransaction) :
    (pollOne oracle e).txid = e.txid := by
  unfold pollOne
  by_cases h : txConfirmed e
  · simp [h]
  · simp only [h, Bool.false_eq_true, if_false]
    cases hx : oracle e.txid <;> simp

theorem periodicPoll_txids (oracle : String → Option TxData)
    (l : List RecentTransaction) :
    (periodicPoll oracle l).map RecentTransaction.txid
      = l.map RecentTransaction.txid := by
  unfold periodicPoll
  rw [List.map_map]
  exact List.map_congr_left (fun e _ => pollOne_txid oracle e)

theorem foldl_cons_rev {α β : Type} (f : α → β) (ids : List α) (old : List β) :
    ids.foldl (fun acc t => f t :: acc) old = (ids.map f).reverse ++ old := by
  induction ids generalizing old with
  | nil => rfl
  | cons a ids ih => simp [List.foldl, ih]

/-- A freshly tracked transaction as `runFile` unshifts it. -/
def pendingTx (b t : String) : RecentTransaction :=
  { txid := t, blockchain := b, tx := none, state := .pending }

theorem runFileTracker_eq (b msg : String) (old : List RecentTransaction) :
    runFileTracker b msg old =
      (((extractTxids msg).map (pendingTx b)).reverse
        ++ old).take MAX_RECENT_TXS := by
  simp only [runFileTracker]
  rw [foldl_cons_rev]
  rfl

/-- C6: after a successful `runFile`, each extracted txid is inserted at the
head as a `pending` entry (successive `unshift`s, so extracted ids end up
newest-first as a reversed block), and the list is truncated to at most
`MAX_RECENT_TXS = 10` entries by dropping the tail; adding an 11th entry to a
list at the cap keeps exactly the newest 10. -/
theorem runFileTracker_correct (b msg : String) (old : List RecentTransaction) :
    runFileTracker b msg old =
      (((extractTxids msg).map (pendingTx b)).reverse
        ++ old).take MAX_RECENT_TXS
    ∧ (runFileTracker b msg old).length ≤ MAX_RECENT_TXS
    ∧ runFileTracker "net" "0xff"
        ((List.range 10).map (fun i => pendingTx "net" (toString i)))
      = pendingTx "net" "0xff"
        :: ((List.range 10).map (fun i => pendingTx "net" (toString i))).take 9 := by
  refine ⟨runFileTracker_eq b msg old, ?_, by decide⟩
  rw [runFileTracker_eq]
  exact List.length_take_le _ _

/-- C1 (amended): a poll cycle leaves every entry whose `tx` carries truthy
`confirmations` unchanged, and the set of queried txids is exactly the txids
of the entries failing that guard — the code keys the re-query decision on
`tx.confirmations`, not on the `ok`/`error` state field. -/
theorem periodicPoll_confirmed_frozen (oracle : String → Option TxData)
    (l : List RecentTransaction) (i : Nat) (hi : i < l.length)
    (hc : txConfirmed (l.get ⟨i, hi⟩) = true) :
    (periodicPoll oracle l).get ⟨i, by simpa [periodicPoll] using hi⟩ = l.get ⟨i, hi⟩
    ∧ (∀ s, s ∈ pollQueries l ↔ ∃ e ∈ l, txConfirmed e = false ∧ e.txid = s) := by
  constructor
  · have hmap : ∀ (h : i < (periodicPoll oracle l).length),
        (periodicPoll oracle l).get ⟨i, h⟩ = pollOne oracle (l.get ⟨i, hi⟩) := by
      intro h
      simp [periodicPoll, List.get_eq_getElem, List.getElem_map]
    rw [hmap]
    have hc' : txConfirmed l[i] = true := hc
    simp [pollOne, hc']
  · intro s
    simp only [pollQueries, List.mem_map, List.mem_filter,
      Bool.not_eq_true']
    constructor
    · rintro ⟨e, ⟨he, hg⟩, rfl⟩
      exact ⟨e, he, hg, rfl⟩
    · rintro ⟨e, he, hg, rfl⟩
      exact ⟨e, ⟨he, hg⟩, rfl⟩

/-- Witness for `periodicPoll_confirmed_frozen` at a concrete input. -/
theorem periodicPoll_confirmed_frozen_witness :
    (periodicPoll (fun _ => some ⟨some "FAULT", some 1⟩)
        [⟨"0xa1", "net", some ⟨none, some 3⟩, .pending⟩]).get
      ⟨0, by simp [periodicPoll]⟩
      = ([⟨"0xa1", "net", some ⟨none, some 3⟩, .pending⟩] :
          List RecentTransaction).get ⟨0, by simp⟩
    ∧ (∀ s, s ∈ pollQueries [⟨"0xa1", "net", some ⟨none, some 3⟩, .pending⟩]
        ↔ ∃ e ∈ ([⟨"0xa1", "net", some ⟨none, some 3⟩, .pending⟩] :
            List RecentTransaction), txConfirmed e = false ∧ e.txid = s) :=
  periodicPoll_confirmed_frozen (fun _ => some ⟨some "FAULT", some 1⟩)
    [⟨"0xa1", "net", some ⟨none, some 3⟩, .pending⟩] 0 (by decide) (by decide)

/-- C1 counterexample: an entry whose `state` is already `ok` but whose `tx`
has no `confirmations` field IS re-queried by the next poll cycle, and is
overwritten by the fresh query result (here flipping to `error`). Such an
entry is reachable: a `runFile` success followed by a poll whose node reply
carries `vmstate: "HALT"` but no `confirmations` yields exactly this entry. -/
theorem claim1_counterexample :
    ReachableRecents [⟨"0xa1", "net", some ⟨some "HALT", none⟩, .ok⟩]
    ∧ (⟨"0xa1", "net", some ⟨some "HALT", none⟩, .ok⟩ : RecentTransaction).state
        = TransactionStatus.ok
    ∧ "0xa1" ∈ pollQueries [⟨"0xa1", "net", some ⟨some "HALT", none⟩, .ok⟩]
    ∧ periodicPoll (fun _ => some ⟨some "FAULT", some 1⟩)
        [⟨"0xa1", "net", some ⟨some "HALT", none⟩, .ok⟩]
      = [⟨"0xa1", "net", some ⟨some "FAULT", some 1⟩, .error⟩] := by
  refine ⟨?_, rfl, by decide, by decide⟩
  have h1 : runFileTracker "net" "0xa1" [] = [pendingTx "net" "0xa1"] := by decide
  have h2 : periodicPoll (fun _ => some ⟨some "HALT", none⟩)
      [pendingTx "net" "0xa1"]
      = [⟨"0xa1", "net", some ⟨some "HALT", none⟩, .ok⟩] := by decide
  have hr : ReachableRecents [pendingTx "net" "0xa1"] :=
    h1 ▸ ReachableRecents.run "net" "0xa1" ReachableRecents.init
  exact h2 ▸ ReachableRecents.poll (fun _ => some ⟨some "HALT", none⟩) hr

/-- C9: when the external runner reports failure, its message is surfaced and
the recent-transaction list is exactly what it was before the call. -/
theorem runFile_error_no_tracker_change (result : RunResult) (b : String)
    (recents : List RecentTransaction) (h : result.isError = true) :
    (runFileAfterRunner result b recents).1 = recents
    ∧ (runFileAfterRunner result b recents).2 = some result.message := by
  simp [runFileAfterRunner, h]

/-- Witness for `runFile_error_no_tracker_change` at a concrete input. -/
theorem runFile_error_no_tracker_change_witness :
    (runFileAfterRunner ⟨true, "boom"⟩ "net"
        [⟨"0xa1", "net", none, .pending⟩]).1 = [⟨"0xa1", "net", none, .pending⟩]
    ∧ (runFileAfterRunner ⟨true, "boom"⟩ "net"
        [⟨"0xa1", "net", none, .pending⟩]).2 = some "boom" :=
  runFile_error_no_tracker_change ⟨true, "boom"⟩ "net"
    [⟨"0xa1", "net", none, .pending⟩] rfl

/-- C7 counterexample: a recent-transaction list with two entries sharing a
txid is reachable — a single runner message mentioning the same id twice
(`"0xaa 1 0xaa"`) yields two `unshift`s with the same txid. -/
theorem claim7_counterexample :
    ReachableRecents
      [⟨"0xaa", "net", none, .pending⟩, ⟨"0xaa", "net", none, .pending⟩]
    ∧ ¬ (([⟨"0xaa", "net", none, .pending⟩, ⟨"0xaa", "net", none, .pending⟩] :
        List RecentTransaction).map RecentTransaction.txid).Nodup := by
  constructor
  · have h : runFileTracker "net" "0xaa 1 0xaa" []
        = [⟨"0xaa", "net", none, .pending⟩, ⟨"0xaa", "net", none, .pending⟩] := by
      decide
    exact h ▸ ReachableRecents.run "net" "0xaa 1 0xaa" ReachableRecents.init
  · decide

/-- C7 (amended): the code does not enforce txid uniqueness; it does preserve
it whenever the ids extracted by a `runFile` are pairwise distinct and
disjoint from those already tracked, and poll cycles never change the
txids. -/
theorem txid_unique_amended (oracle : String → Option TxData) (b msg : String)
    (old l : List RecentTransaction)
    (h1 : (extractTxids msg).Nodup)
    (h2 : ∀ t ∈ extractTxids msg, t ∉ old.map RecentTransaction.txid)
    (h3 : (old.map RecentTransaction.txid).Nodup) :
    ((runFileTracker b msg old).map RecentTransaction.txid).Nodup
    ∧ (periodicPoll oracle l).map RecentTransaction.txid
        = l.map RecentTransaction.txid := by
  refine ⟨?_, periodicPoll_txids oracle l⟩
  rw [runFileTracker_eq]
  refine (List.take_sublist _ _).map RecentTransaction.txid |>.nodup ?_
  rw [List.map_append, List.map_reverse, List.map_map]
  have htx : (RecentTransaction.txid ∘ pendingTx b) = id := rfl
  rw [htx, List.map_id]
  refine List.Nodup.append (List.nodup_reverse.2 h1) h3 ?_
  intro t ht
  exact h2 t (List.mem_reverse.1 ht)

/-- Witness for `txid_unique_amended` at concrete inputs. -/
theorem txid_unique_amended_witness :
    ((runFileTracker "net" "0xaa" [⟨"0xbb", "net", none, .pending⟩]).map
        RecentTransaction.txid).Nodup
    ∧ (periodicPoll (fun _ => none) []).map RecentTransaction.txid
        = ([] : List RecentTransaction).map RecentTransaction.txid :=
  txid_unique_amended (fun _ => none) "net" "0xaa"
    [⟨"0xbb", "net", none, .pending⟩] [] (by decide) (by decide) (by decide)

/-! ## Invocation-file parsing (`onFileUpdate`)

```ts
let fileText = this.document.getText();
if (fileText?.trim().length === 0) { fileText = "[]"; }
try {
  let fileContents = JSONC.parse(fileText) || [];
  if (!Array.isArray(fileContents)) { fileContents = [fileContents]; }
  this.updateViewState({ fileContents, errorText: "" });
} catch {
  this.updateViewState({ errorText: `There was a problem parsing "…"…` });
  return;
}
```
-/

/-- A JSON value as produced by the invocation-file parser. -/
inductive Js where
  | null
  | bool (b : Bool)
  | num (n : Int)
  | str (s : String)
  | arr (elems : List Js)
  | obj (fields : List (String × Js))

/-- JS truthiness of a parsed value (`JSONC.parse(fileText) || []`). -/
def jsTruthy : Js → Bool
  | .null => false
  | .bool b => b
  | .num n => n ≠ 0
  | .str s => s ≠ ""
  | .arr _ => true
  | .obj _ => true

def skipWs (cs : List Char) : List Char := cs.dropWhile jsWhitespace

mutual

/-- Modelled from the spec: `JSONC.parse` (module `extension/JSONC`, whose
source is not provided) parses well-formed structured data and throws
otherwise; it is modelled as a strict recursive-descent JSON reader (numeric
literals as integers, strings without escape sequences), `none` standing for
the thrown parse error. The fuel argument is supplied as the input length
plus one, which every well-formed input stays under since each nesting level
consumes at least one character. -/
def parseVal : Nat → List Char → Option (Js × List Char)
  | 0, _ => none
  | fuel + 1, cs =>
    match skipWs cs with
    | 'n' :: 'u' :: 'l' :: 'l' :: rest => some (.null, rest)
    | 't' :: 'r' :: 'u' :: 'e' :: rest => some (.bool true, rest)
    | 'f' :: 'a' :: 'l' :: 's' :: 'e' :: rest => some (.bool false, rest)
    | '"' :: rest =>
      let s := rest.takeWhile (fun c => c ≠ '"')
      (match rest.drop s.length with
        | '"' :: rest2 => some (.str (String.mk s), rest2)
        | _ => none)
    | '[' :: rest =>
      (match skipWs rest with
        | ']' :: rest2 => some (.arr [], rest2)
        | _ => (parseElems fuel rest).map (fun p => (.arr p.1, p.2)))
    | '{' :: rest =>
      (match skipWs rest with
        | '}' :: rest2 => some (.obj [], rest2)
        | _ => (parseFields fuel rest).map (fun p => (.obj p.1, p.2)))
    | '-' :: rest =>
      let ds := rest.takeWhile Char.isDigit
      if ds.isEmpty then none
      else some (.num (-(String.mk ds).toNat!), rest.drop ds.length)
    | c :: rest =>
      if c.isDigit then
        let ds := (c :: rest).takeWhile Char.isDigit
        some (.num ((String.mk ds).toNat!), (c :: rest).drop ds.length)
      else none
    | [] => none

/-- One-or-more comma-separated array elements followed by `]`. -/
def parseElems : Nat → List Char → Option (List Js × List Char)
  | 0, _ => none
  | fuel + 1, cs =>
    match parseVal fuel cs with
    | none => none
    | some (v, rest) =>
      match skipWs rest with
      | ',' :: rest2 =>
        (parseElems fuel rest2).map (fun p => (v :: p.1, p.2))
      | ']' :: rest2 => some ([v], rest2)
      | _ => none

/-- One-or-more comma-separated object fields followed by `}`. -/
def parseFields : Nat → List Char → Option (List (String × Js) × List Char)
  | 0, _ => none
  | fuel + 1, cs =>
    match skipWs cs with
    | '"' :: rest =>
      let s := rest.takeWhile (fun c => c ≠ '"')
      (match rest.drop s.length with
        | '"' :: rest2 =>
          (match skipWs rest2 with
            | ':' :: rest3 =>
              (match parseVal fuel rest3 with
                | none => none
                | some (v, rest4) =>
                  match skipWs rest4 with
                  | ',' :: rest5 =>
                    (parseFields fuel rest5).map
                      (fun p => ((String.mk s, v) :: p.1, p.2))
                  | '}' :: rest5 => some ([(String.mk s, v)], rest5)
                  | _ => none)
            | _ => none)
        | _ => none)
    | _ => none

end

/-- Modelled from the spec: the whole-text entry point of the `JSONC` parse,
requiring the text to be a single value with only trailing whitespace. -/
def JSONCparse (text : String) : Option Js :=
  let cs := text.data
  match parseVal (cs.length + 1) cs with
  | some (v, rest) => if (skipWs rest).isEmpty then some v else none
  | none => none

/-- The `fileText?.trim().length === 0` check: the trimmed text is empty
exactly when every character is whitespace. -/
def isWhitespaceOnly (text : String) : Bool := text.data.all jsWhitespace

/-- The parse part of `onFileUpdate`: `none` is the `catch` branch, `some l`
the new `fileContents`. Whitespace-only text is replaced by `"[]"` before
parsing; a falsy parse result is replaced by `[]` (`JSONC.parse(fileText) || []`);
a non-array result is wrapped in a singleton. -/
def parsedContents (text : String) : Option (List Js) :=
  let fileText := if isWhitespaceOnly text then "[]" else text
  match JSONCparse fileText with
  | none => none
  | some v =>
    let fc := if jsTruthy v then v else Js.arr []
    some (match fc with
      | Js.arr l => l
      | _ => [fc])

/-- The view state owned by the panel controller (construction defaults). -/
structure ViewState where
  fileContents : List Js
  errorText : String
  recentTransactions : List RecentTransaction
  collapseTransactions : Bool
  selectedTransactionId : Option String

/-- A double-quote character as a string. -/
def dquote : String := String.mk [Char.ofNat 34]

/-- The `catch` branch's message, naming the document's base file name in
double quotes. -/
def parseErrorMessage (basename : String) : String :=
  "There was a problem parsing " ++ dquote ++ basename ++ dquote
    ++ ". Try opening the file using the built-in editor and confirm that it contains valid JSON."

/-- `onFileUpdate` on a freshly read document text: on parse success,
`fileContents` is replaced and `errorText` cleared; on parse failure only
`errorText` is set, to a message naming the document's base file name. -/
def onFileUpdate (basename : String) (text : String) (vs : ViewState) :
    ViewState :=
  match parsedContents text with
  | some fc => { vs with fileContents := fc, errorText := "" }
  | none => { vs with errorText := parseErrorMessage basename }

/-- C4 (amended): empty or whitespace-only text parses to the empty step
sequence; well-formed text with a sequence top level yields its elements;
well-formed text with a truthy non-sequence top level yields a one-element
sequence, but a falsy top-level value (`null`, `false`, `0`, `""`) yields the
empty sequence because of `JSONC.parse(fileText) || []`; for non-whitespace
text the error branch is taken exactly when the text is malformed. -/
theorem parsedContents_correct (text : String) :
    (isWhitespaceOnly text = true → parsedContents text = some [])
    ∧ (∀ v, isWhitespaceOnly text = false → JSONCparse text = some v →
        parsedContents text =
          some (match v with
            | Js.arr l => l
            | v => if jsTruthy v then [v] else []))
    ∧ (isWhitespaceOnly text = false →
        (parsedContents text = none ↔ JSONCparse text = none)) := by
  refine ⟨?_, ?_, ?_⟩
  · intro h
    simp only [parsedContents, h, if_true]
    rfl
  · intro v h hv
    simp only [parsedContents, h, Bool.false_eq_true, if_false, hv]
    cases v with
    | null => rfl
    | bool b => cases b <;> rfl
    | num n =>
      by_cases hn : n = 0
      · simp [hn, jsTruthy]
      · simp [jsTruthy, hn]
    | str s =>
      by_cases hs : s = ""
      · simp [hs, jsTruthy]
      · simp [jsTruthy, hs]
    | arr l => rfl
    | obj f => rfl
  · intro h
    simp only [parsedContents, h, Bool.false_eq_true, if_false]
    cases hv : JSONCparse text <;> simp

/-- Witness for `parsedContents_correct` at concrete inputs. -/
theorem parsedContents_correct_witness :
    parsedContents "" = some []
    ∧ parsedContents "true" = some [Js.bool true]
    ∧ (parsedContents "[" = none ↔ JSONCparse "[" = none) := by
  refine ⟨(parsedContents_correct "").1 rfl, ?_,
    (parsedContents_correct "[").2.2 rfl⟩
  have h := (parsedContents_correct "true").2.1 (Js.bool true) rfl rfl
  simpa using h

/-- C4 counterexample: `"null"` is well-formed text whose top-level value is
not a sequence, yet the parse yields the empty sequence rather than the
one-element sequence `[null]` — `JSONC.parse(fileText) || []` discards falsy
top-level values. -/
theorem claim4_counterexample :
    JSONCparse "null" = some Js.null
    ∧ parsedContents "null" = some []
    ∧ parsedContents "null" ≠ some [Js.null] := by
  refine ⟨rfl, rfl, ?_⟩
  intro h
  rw [show parsedContents "null" = some [] from rfl] at h
  simp at h

/-- C5: on malformed document text, `onFileUpdate` leaves the previous
`fileContents` (and the rest of the view state) unchanged and sets
`errorText` to a non-empty message naming the offending file. -/
theorem onFileUpdate_parse_failure (basename text : String) (vs : ViewState)
    (h : parsedContents text = none) :
    (onFileUpdate basename text vs).fileContents = vs.fileContents
    ∧ (onFileUpdate basename text vs).recentTransactions = vs.recentTransactions
    ∧ (onFileUpdate basename text vs).errorText ≠ ""
    ∧ ∃ pre post, (onFileUpdate basename text vs).errorText
        = pre ++ basename ++ post := by
  refine ⟨by simp [onFileUpdate, h], by simp [onFileUpdate, h], ?_, ?_⟩
  · simp only [onFileUpdate, h]
    intro heq
    have hlen := congrArg String.length heq
    simp [parseErrorMessage, String.length_append] at hlen
    exact (by decide : ¬ ("There was a problem parsing ".length = 0)) hlen.1.1.1.1
  · refine ⟨"There was a problem parsing " ++ dquote,
      dquote ++ ". Try opening the file using the built-in editor and confirm that it contains valid JSON.",
      ?_⟩
    simp [onFileUpdate, h, parseErrorMessage, String.append_assoc]

/-- Witness for `onFileUpdate_parse_failure` at a concrete input. -/
theorem onFileUpdate_parse_failure_witness :
    (onFileUpdate "test.neo-invoke.json" "["
        ⟨[Js.obj []], "", [], true, none⟩).fileContents = [Js.obj []]
    ∧ (onFileUpdate "test.neo-invoke.json" "["
        ⟨[Js.obj []], "", [], true, none⟩).recentTransactions = []
    ∧ (onFileUpdate "test.neo-invoke.json" "["
        ⟨[Js.obj []], "", [], true, none⟩).errorText ≠ ""
    ∧ ∃ pre post, (onFileUpdate "test.neo-invoke.json" "["
        ⟨[Js.obj []], "", [], true, none⟩).errorText
          = pre ++ "test.neo-invoke.json" ++ post :=
  onFileUpdate_parse_failure "test.neo-invoke.json" "["
    ⟨[Js.obj []], "", [], true, none⟩ rfl

/-! ## Auto-complete augmentation (`augmentAutoCompleteData`)

```ts
const result = { ...data };
result.contractPaths = { ...result.contractPaths };
result.contractHashes = { ...result.contractHashes };
```

`{ ...data }` copies field references: `result.contractPaths` and
`result.contractHashes` are then replaced by fresh copies, but
`result.contractManifests` still aliases `data.contractManifests`, so the
later `result.contractManifests[…] = manifest` assignments mutate the base
object. The embedding therefore returns the pair (function result, state of
`data` after the call). -/

structure Manifest where
  abiHash : String
  body : String
deriving DecidableEq, Repr

/-- The completion data shared with the panel. `contractPaths` maps a
contract hash to its source paths, `contractHashes` maps a path back to a
hash (an entry's `none` value models a JS property holding `undefined`), and
`contractManifests` maps a hash to a fetched manifest. -/
structure AutoCompleteData where
  contractPaths : List (String × List String)
  contractHashes : List (String × Option String)
  contractManifests : List (String × Manifest)
deriving DecidableEq, Repr

/-- One entry of the invocation file as the augmenter sees it. -/
structure InvocationStep where
  contract : Option String := none
  operation : Option String := none
  args : List Js := []

/-- `s.startsWith("0x")`. -/
def startsWith0x (s : String) : Bool :=
  match s.data with
  | '0' :: 'x' :: _ => true
  | _ => false

def charListLe : List Char → List Char → Bool
  | [], _ => true
  | _ :: _, [] => false
  | a :: as, b :: bs =>
    if a < b then true else if b < a then false else charListLe as bs

def strLeb (a b : String) : Bool := charListLe a.data b.data

def sortedInsert (s : String) : List String → List String
  | [] => [s]
  | a :: l => if strLeb s a then s :: a :: l else a :: sortedInsert s l

def insertionSort : List String → List String
  | [] => []
  | a :: l => sortedInsert a (insertionSort l)

def dedupKeepFirst : List String → List String
  | [] => []
  | a :: l => a :: (dedupKeepFirst l).filter (fun b => b ≠ a)

/-- Modelled from the spec: `dedupeAndSort` (module `extension/dedupeAndSort`,
whose source is not provided) deduplicates and sorts a list of paths;
implemented as first-occurrence duplicate removal followed by insertion sort
on the character sequence. -/
def dedupeAndSort (l : List String) : List String :=
  insertionSort (dedupKeepFirst l)

/-- The inner `for (const contractPath of contractPaths)` loop. JS `for…of`
over an array that is `push`ed to during iteration also visits the appended
elements, so the loop is modelled by an index cursor over a growing array.
`isAbs` and `rel` model `path.isAbsolute` and `path.relative(baseHref, ·)`.
The fuel is supplied as `2 * n + 1` for an initial array of length `n`, which
covers every run in which `rel` never produces an absolute path (guaranteed
by `path.relative`); a run needing more fuel would be a nonterminating JS
loop. -/
def pathsPush (isAbs : String → Bool) (rel : String → String) :
    Nat → List String → Nat → List (String × Option String) →
    List String × List (String × Option String)
  | 0, arr, _, ch => (arr, ch)
  | fuel + 1, arr, i, ch =>
    match arr.get? i with
    | none => (arr, ch)
    | some p =>
      if isAbs p then
        let r := rel p
        pathsPush isAbs rel fuel (arr ++ [r]) (i + 1)
          (objSet ch r ((objGet ch p).join))
      else pathsPush isAbs rel fuel arr (i + 1) ch

/-- The outer `for (const hash of Object.keys(data.contractPaths))` loop:
`remaining` iterates the entries of the unmutated `data.contractPaths`, `cp`
and `ch` accumulate `result.contractPaths` and `result.contractHashes`. -/
def augmentPathsLoop (isAbs : String → Bool) (rel : String → String) :
    List (String × List String) → List (String × List String) →
    List (String × Option String) →
    List (String × List String) × List (String × Option String)
  | [], cp, ch => (cp, ch)
  | (hash, paths) :: remaining, cp, ch =>
    let r := pathsPush isAbs rel (2 * paths.length + 1) paths 0 ch
    augmentPathsLoop isAbs rel remaining
      (objSet cp hash (dedupeAndSort r.1)) r.2

/-- The contract hashes the manifest loop iterates:
`fileContents.filter((_) => _.contract?.startsWith("0x")).map((_) => _.contract || "")`. -/
def stepContractHashes (fileContents : List InvocationStep) : List String :=
  (fileContents.filter (fun st =>
    match st.contract with
    | some c => startsWith0x c
    | none => false)).map (fun st => st.contract.getD "")

/-- The `try { … } catch {}` manifest loop: each successful
`getContractState` result is stored keyed by the manifest's own reported
hash; a failed fetch (`none`) is silently skipped. -/
def mergeManifests (getContractState : String → Option Manifest)
    (hashes : List String) (acc : List (String × Manifest)) :
    List (String × Manifest) :=
  hashes.foldl
    (fun acc h =>
      match getContractState h with
      | some m => objSet acc m.abiHash m
      | none => acc)
    acc

/-- `augmentAutoCompleteData`, returning (the function's result, the state of
the `data` argument after the call). `connection` models
`this.activeConnection.connection?.rpcClient`: `none` skips the manifest
loop. Because `result.contractManifests` aliases `data.contractManifests`,
both components share the merged manifest map. -/
def augmentAutoCompleteData (isAbs : String → Bool) (rel : String → String)
    (connection : Option (String → Option Manifest))
    (fileContents : List InvocationStep) (data : AutoCompleteData) :
    AutoCompleteData × AutoCompleteData :=
  let pr := augmentPathsLoop isAbs rel data.contractPaths
    data.contractPaths data.contractHashes
  let manifests :=
    match connection with
    | none => data.contractManifests
    | some getContractState =>
      mergeManifests getContractState (stepContractHashes fileContents)
        data.contractManifests
  (⟨pr.1, pr.2, manifests⟩,
   { data with contractManifests := manifests })

theorem periodicPoll_get (oracle : String → Option TxData)
    (l : List RecentTransaction) (j : Nat) (hj : j < l.length)
    (h' : j < (periodicPoll oracle l).length) :
    (periodicPoll oracle l).get ⟨j, h'⟩ = pollOne oracle (l.get ⟨j, hj⟩) := by
  simp [periodicPoll, List.get_eq_getElem, List.getElem_map]

theorem pollOne_fetch_failure (oracle : String → Option TxData)
    (e : RecentTransaction) (hfail : oracle e.txid = none) :
    pollOne oracle e = e := by
  unfold pollOne
  by_cases hg : txConfirmed e
  · simp [hg]
  · simp [hg, hfail]

/-- C3: `contractPaths` and `contractHashes` of the base completion data are
never mutated (they are re-copied before the in-place updates), but
`{ ...data }` copies only the reference of `contractManifests`, so a
successful manifest fetch mutates the base data object — evaluated here at a
concrete failing input where the base's empty manifest map gains the fetched
manifest. -/
theorem claim3_manifest_aliasing :
    (∀ (isAbs : String → Bool) (rel : String → String)
        (conn : Option (String → Option Manifest))
        (fc : List InvocationStep) (data : AutoCompleteData),
        ((augmentAutoCompleteData isAbs rel conn fc data).2).contractPaths
            = data.contractPaths
        ∧ ((augmentAutoCompleteData isAbs rel conn fc data).2).contractHashes
            = data.contractHashes)
    ∧ ((augmentAutoCompleteData (fun _ => false) id
          (some (fun h => if h = "0xab" then some ⟨"0xab", "m"⟩ else none))
          [⟨some "0xab", none, []⟩] ⟨[], [], []⟩).2).contractManifests
        = [("0xab", ⟨"0xab", "m"⟩)]
    ∧ (augmentAutoCompleteData (fun _ => false) id
          (some (fun h => if h = "0xab" then some ⟨"0xab", "m"⟩ else none))
          [⟨some "0xab", none, []⟩] ⟨[], [], []⟩).2
        ≠ (⟨[], [], []⟩ : AutoCompleteData) := by
  refine ⟨fun isAbs rel conn fc data => ⟨rfl, rfl⟩, by decide, by decide⟩

/-- C8: per-item failure isolation. In a poll cycle, an entry whose query
fails is returned unchanged while every entry is still processed
independently; in the augmenter, the path/alias augmentation does not depend
on the connection at all, and a failing manifest fetch is skipped exactly as
if its hash were absent, leaving every other fetch merged. -/
theorem claim8_failure_isolation (oracle : String → Option TxData)
    (l : List RecentTransaction) (i : Nat) (hi : i < l.length)
    (hfail : oracle (l.get ⟨i, hi⟩).txid = none)
    (isAbs : String → Bool) (rel : String → String)
    (fc : List InvocationStep) (data : AutoCompleteData)
    (o : String → Option Manifest) (hashes : List String)
    (acc : List (String × Manifest)) :
    (periodicPoll oracle l).get ⟨i, by simpa [periodicPoll] using hi⟩
        = l.get ⟨i, hi⟩
    ∧ (∀ j (hj : j < l.length),
        (periodicPoll oracle l).get ⟨j, by simpa [periodicPoll] using hj⟩
          = pollOne oracle (l.get ⟨j, hj⟩))
    ∧ (augmentAutoCompleteData isAbs rel (some o) fc data).1.contractPaths
        = (augmentAutoCompleteData isAbs rel none fc data).1.contractPaths
    ∧ (augmentAutoCompleteData isAbs rel (some o) fc data).1.contractHashes
        = (augmentAutoCompleteData isAbs rel none fc data).1.contractHashes
    ∧ mergeManifests o hashes acc
        = mergeManifests o (hashes.filter (fun h => (o h).isSome)) acc := by
  refine ⟨?_, ?_, rfl, rfl, ?_⟩
  · rw [periodicPoll_get oracle l i hi]
    exact pollOne_fetch_failure oracle _ hfail
  · intro j hj
    exact periodicPoll_get oracle l j hj _
  · induction hashes generalizing acc with
    | nil => rfl
    | cons h t ih =>
      cases ho : o h with
      | none =>
        have hfilter : List.filter (fun x => (o x).isSome) (h :: t)
            = List.filter (fun x => (o x).isSome) t := by
          simp [List.filter, ho]
        have hfold : mergeManifests o (h :: t) acc = mergeManifests o t acc := by
          simp [mergeManifests, List.foldl, ho]
        rw [hfold, hfilter]
        exact ih acc
      | some m =>
        have hfilter : List.filter (fun x => (o x).isSome) (h :: t)
            = h :: List.filter (fun x => (o x).isSome) t := by
          simp [List.filter, ho]
        have hfold1 : mergeManifests o (h :: t) acc
            = mergeManifests o t (objSet acc m.abiHash m) := by
          simp [mergeManifests, List.foldl, ho]
        have hfold2 : mergeManifests o (h :: List.filter (fun x => (o x).isSome) t) acc
            = mergeManifests o (List.filter (fun x => (o x).isSome) t)
              (objSet acc m.abiHash m) := by
          simp [mergeManifests, List.foldl, ho]
        rw [hfold1, hfilter, hfold2]
        exact ih (objSet acc m.abiHash m)

/-- Witness for `claim8_failure_isolation` at concrete inputs. -/
theorem claim8_failure_isolation_witness :
    (periodicPoll (fun _ => none) [⟨"0xa1", "net", none, .pending⟩]).get
        ⟨0, by simp [periodicPoll]⟩
      = ([⟨"0xa1", "net", none, .pending⟩] : List RecentTransaction).get
        ⟨0, by simp⟩
    ∧ (∀ j (hj : j < ([⟨"0xa1", "net", none, .pending⟩] :
          List RecentTransaction).length),
        (periodicPoll (fun _ => none) [⟨"0xa1", "net", none, .pending⟩]).get
            ⟨j, by simpa [periodicPoll] using hj⟩
          = pollOne (fun _ => none)
            (([⟨"0xa1", "net", none, .pending⟩] :
              List RecentTransaction).get ⟨j, hj⟩))
    ∧ (augmentAutoCompleteData (fun _ => false) id (some (fun _ => none)) []
          ⟨[], [], []⟩).1.contractPaths
        = (augmentAutoCompleteData (fun _ => false) id none []
          ⟨[], [], []⟩).1.contractPaths
    ∧ (augmentAutoCompleteData (fun _ => false) id (some (fun _ => none)) []
          ⟨[], [], []⟩).1.contractHashes
        = (augmentAutoCompleteData (fun _ => false) id none []
          ⟨[], [], []⟩).1.contractHashes
    ∧ mergeManifests (fun _ => none) ["0xab"] []
        = mergeManifests (fun _ => none)
          (["0xab"].filter (fun h => ((fun _ => none : String → Option Manifest) h).isSome)) [] :=
  claim8_failure_isolation (fun _ => none) [⟨"0xa1", "net", none, .pending⟩] 0
    (by decide) rfl (fun _ => false) id [] ⟨[], [], []⟩ (fun _ => none)
    ["0xab"] []

end InvokeFile
